import Mathlib

/-!
Verification of the bullet-journal data manager (`src/index.js`).

The JavaScript source keeps one mutable aggregate `this.data` with five
collections (`dailyLogs`, `monthlyLogs`, `yearlyLogs`, `habits`, `habitLogs`),
each a plain JS object used as a string-keyed map.  We embed:

* JS objects used as maps become association lists `List (key × value)`
  with unique keys; property assignment `obj[k] = v` becomes `setKey`
  (which keeps the position of an existing key, matching JS insertion-order
  semantics) and property lookup becomes `lookupKey`.
* Thrown `Error`s become the error taxonomy `JErr` (spec §7); every mutating
  operation returns the resulting aggregate paired with an `Except` outcome,
  and a thrown error leaves the aggregate unchanged, exactly as in the source
  where every `throw` happens before any mutation.
* `localStorage` persistence is invisible to every claim (it never feeds back
  into the in-memory state inside one session), so `saveToStorage` is omitted.
* Calendar dates: habit-log keys are the `YYYY-MM-DD` strings of the source.
  The streak/statistics engine converts them with `new Date(s).getTime()` and
  steps by 86 400 000 ms; following the spec's fixed-offset day model (§4.3,
  §5) we abstract a canonical date string to its day number via a valuation
  `val : String → Int` (standing for `new Date(s).getTime() / 86400000`),
  under which lexicographic string order agrees with integer order and the
  previous calendar day of `s` has value `val s - 1`.
* JS numbers in the statistics are embedded as exact rationals `ℚ`;
  `Math.round` is `⌊x + 1/2⌋` (round half toward +∞).
-/

deriving instance DecidableEq for Except

namespace BulletJournal

/-- Error taxonomy of the spec (§7): the source throws `Error` objects whose
messages distinguish invalid formats ("Invalid date format..."), missing
entities ("... not found"), and duplicate habit ids ("... already exists"). -/
inductive JErr where
  | invalidFormat
  | notFound
  | alreadyExists
deriving DecidableEq, Repr

/-- JS `x || d` for an optionally-present string property: `undefined` and the
empty string are falsy. -/
def jsOrStr (v : Option String) (d : String) : String :=
  match v with
  | none => d
  | some s => if s = "" then d else s

/-- JS `x || d` for an optionally-present numeric property: `undefined` and
`0` are falsy. -/
def jsOrInt (v : Option Int) (d : Int) : Int :=
  match v with
  | none => d
  | some x => if x = 0 then d else x

/-- JS object property read `obj[k]` (on an object embedded as an
association list). -/
def lookupKey {α β : Type} [DecidableEq α] (k : α) : List (α × β) → Option β
  | [] => none
  | p :: rest => if p.1 = k then some p.2 else lookupKey k rest

/-- JS object property write `obj[k] = v`: overwrites in place when the key
exists (keeping its position, as JS preserves insertion order), appends
otherwise. -/
def setKey {α β : Type} [DecidableEq α] (k : α) (v : β) : List (α × β) → List (α × β)
  | [] => [(k, v)]
  | p :: rest => if p.1 = k then (k, v) :: rest else p :: setKey k v rest

/-- A task inside a daily log, after `normalizeTask` (src/index.js:93-108). -/
structure Task where
  text : String
  priority : String
  status : String
  createdAt : String
deriving DecidableEq, Repr

/-- Caller input to the task list of `addDailyLog`: the source accepts either
a plain string or an object with optional fields (src/index.js:93-108). -/
inductive TaskInput where
  | str (s : String)
  | obj (text : Option String) (priority : Option String) (status : Option String)
      (createdAt : Option String)
deriving DecidableEq, Repr

/-- Embedding of `normalizeTask` (src/index.js:93-108); `now` is the value of
`new Date().toISOString()` at call time. -/
def normalizeTask (now : String) : TaskInput → Task
  | .str s => ⟨s, "medium", "todo", now⟩
  | .obj t p st c => ⟨jsOrStr t "", jsOrStr p "medium", jsOrStr st "todo", jsOrStr c now⟩

/-- A stored daily log entry (src/index.js:75-82). -/
structure DailyLog where
  date : String
  tasks : List Task
  notes : List String
  events : List String
  tags : List String
  timestamp : String
deriving DecidableEq, Repr

/-- Caller input to `addDailyLog`: an object with optional `tasks`, `notes`,
`events`, `tags` properties (absent array properties default via `|| []`;
an empty array is truthy in JS, so `Option.getD` is exact). -/
structure EntryInput where
  tasks : Option (List TaskInput)
  notes : Option (List String)
  events : Option (List String)
  tags : Option (List String)
deriving DecidableEq, Repr

/-- The `dailyEntry` object built inside `addDailyLog` (src/index.js:75-82). -/
def mkDailyEntry (date : String) (entry : EntryInput) (now : String) : DailyLog :=
  { date := date
    tasks := (entry.tasks.getD []).map (normalizeTask now)
    notes := entry.notes.getD []
    events := entry.events.getD []
    tags := entry.tags.getD []
    timestamp := now }

/-- A stored monthly log entry (src/index.js:579-586). -/
structure MonthlyLog where
  month : String
  goals : List String
  tasks : List String
  overview : String
  highlights : List String
  timestamp : String
deriving DecidableEq, Repr

/-- A stored yearly log entry (src/index.js:660-667). -/
structure YearlyLog where
  year : String
  goals : List String
  achievements : List String
  overview : String
  highlights : List String
  timestamp : String
deriving DecidableEq, Repr

/-- A stored habit (src/index.js:376-384). -/
structure Habit where
  id : String
  name : String
  description : String
  frequency : String
  target : Int
  tags : List String
  createdAt : String
deriving DecidableEq, Repr

/-- A stored habit-completion log entry (src/index.js:407-413). -/
structure HabitLog where
  date : String
  completed : Bool
  notes : String
  value : Int
  timestamp : String
deriving DecidableEq, Repr

/-- Caller input `logData` of `logHabit` (src/index.js:399): optional `notes`
and `value` properties. -/
structure LogInput where
  notes : Option String
  value : Option Int
deriving DecidableEq, Repr

/-- The `habitLog` object built inside `logHabit` (src/index.js:407-413):
`notes: logData.notes || ''`, `value: logData.value || 1`. -/
def mkHabitLog (date : String) (logData : LogInput) (now : String) : HabitLog :=
  ⟨date, true, jsOrStr logData.notes "", jsOrInt logData.value 1, now⟩

/-- The aggregate root `this.data` (src/index.js:4-10): five string-keyed
collections; `habitLogs` maps a habit id to a date-keyed collection. -/
structure JournalData where
  dailyLogs : List (String × DailyLog)
  monthlyLogs : List (String × MonthlyLog)
  yearlyLogs : List (String × YearlyLog)
  habits : List (String × Habit)
  habitLogs : List (String × List (String × HabitLog))
deriving DecidableEq, Repr

/-- The empty aggregate the constructor falls back to (src/index.js:4-10). -/
def initialData : JournalData := ⟨[], [], [], [], []⟩

/-- Embedding of `isValidDate` (src/index.js:735-737), the regex
`/^\d{4}-\d{2}-\d{2}$/` applied to the character sequence of `date`. -/
def isValidDate (date : String) : Bool :=
  match date.data with
  | [y1, y2, y3, y4, h1, m1, m2, h2, d1, d2] =>
    y1.isDigit && y2.isDigit && y3.isDigit && y4.isDigit && h1 == '-' &&
    m1.isDigit && m2.isDigit && h2 == '-' && d1.isDigit && d2.isDigit
  | _ => false

/-- Embedding of `addDailyLog` (src/index.js:70-87): validate the date, then store the
freshly-built entry under the date key.  The pair returns the resulting
aggregate and the outcome (the thrown error leaves the aggregate unchanged
because the `throw` precedes every mutation). -/
def addDailyLog (st : JournalData) (date : String) (entry : EntryInput) (now : String) :
    JournalData × Except JErr DailyLog :=
  if isValidDate date = false then
    (st, .error .invalidFormat)
  else
    let e := mkDailyEntry date entry now
    ({ st with dailyLogs := setKey date e st.dailyLogs }, .ok e)

/-- JS `String.prototype.toLowerCase` restricted to the ASCII letters, which
is all the source ever feeds it (tag and keyword strings). -/
def lowerChar (c : Char) : Char :=
  if 'A' ≤ c && c ≤ 'Z' then Char.ofNat (c.toNat + 32) else c

/-- JS `tag.toLowerCase()` on a whole string. -/
def lowerStr (s : String) : String := ⟨s.data.map lowerChar⟩

/-- Embedding of `getLogsByTag` (src/index.js:306-311): lowercase the query tag, keep the
daily logs whose stored tag list contains it, each annotated with its date
(the `(date, log)` pair is the `{ date, ...log }` object of the source). -/
def getLogsByTag (st : JournalData) (tag : String) : List (String × DailyLog) :=
  let normalizedTag := lowerStr tag
  st.dailyLogs.filter (fun p => p.2.tags.contains normalizedTag)

/-- Embedding of `getLogsByTags` (src/index.js:318-326): lowercase every query tag, keep
the daily logs whose stored tag list contains all of them. -/
def getLogsByTags (st : JournalData) (tags : List String) : List (String × DailyLog) :=
  let normalizedTags := tags.map (fun t => lowerStr t)
  st.dailyLogs.filter (fun p => normalizedTags.all (fun t => p.2.tags.contains t))

/-- Embedding of `logHabit` (src/index.js:399-422): habit-existence check first, then date
validation, then upsert of the habit-log entry under `(habitId, date)`. -/
def logHabit (st : JournalData) (habitId : String) (date : String) (logData : LogInput)
    (now : String) : JournalData × Except JErr HabitLog :=
  match lookupKey habitId st.habits with
  | none => (st, .error .notFound)
  | some _ =>
    if isValidDate date = false then
      (st, .error .invalidFormat)
    else
      let hl := mkHabitLog date logData now
      let cur := (lookupKey habitId st.habitLogs).getD []
      ({ st with habitLogs := setKey habitId (setKey date hl cur) st.habitLogs }, .ok hl)

/-- Embedding of `getHabitLogs` (src/index.js:463-482).  The source compares the raw date
strings lexicographically; under the day-number valuation `val` this is the
integer comparison used here, with the bounds already converted to day
numbers (`none` = the source's `null`, i.e. unbounded). -/
def getHabitLogs (st : JournalData) (habitId : String) (val : String → Int)
    (startD endD : Option Int) : List (String × HabitLog) :=
  match lookupKey habitId st.habitLogs with
  | none => []
  | some logs =>
    if startD.isNone && endD.isNone then logs
    else logs.filter (fun p =>
      (startD.all fun s => decide (s ≤ val p.1)) && (endD.all fun e => decide (val p.1 ≤ e)))

/-- Streak result (src/index.js:530-534).  The early return for an empty log
collection (src/index.js:493-495) yields an object *without* the
`totalCompletions` property, embedded as `none`. -/
structure Streak where
  current : Nat
  longest : Nat
  totalCompletions : Option Nat
deriving DecidableEq, Repr

/-- The `while (logs[checkDate])` loop of the current-streak computation
(src/index.js:507-512), on day numbers: count how many consecutive days
starting at `d` and stepping backward are present in `ds`.  The source loop
terminates because each iteration consumes a distinct logged date, so a fuel
of `ds.length` is exact (proved in `countBack_lt_fuel`). -/
def countBack (ds : List Int) : Nat → Int → Nat
  | 0, _ => 0
  | fuel + 1, d => if d ∈ ds then 1 + countBack ds fuel (d - 1) else 0

/-- The longest-streak `for` loop plus the final `Math.max`
(src/index.js:516-528): walk adjacent pairs of the descending-sorted date
list; a gap of exactly one day extends the running streak, anything else
closes it. -/
def longestLoop : List Int → Nat → Nat → Nat
  | [], best, temp => max best temp
  | [_], best, temp => max best temp
  | d1 :: d2 :: rest, best, temp =>
    if d1 - d2 = 1 then longestLoop (d2 :: rest) best (temp + 1)
    else longestLoop (d2 :: rest) (max best temp) 1

/-- The body of `getHabitStreak` (src/index.js:489-535) on the day numbers of
the logged dates: sort ascending and reverse (the source's
`.sort().reverse()` on ISO strings), early-return on an empty history,
otherwise compute the current streak by probing membership backward from
`today` and the longest streak by the adjacent-pair loop. -/
def streakOfDates (dates : List Int) (today : Int) : Streak :=
  let sorted := (List.insertionSort (fun a b => a ≤ b) dates).reverse
  if dates = [] then ⟨0, 0, none⟩
  else
    let current := if today ∈ dates then 1 + countBack dates dates.length (today - 1) else 0
    ⟨current, longestLoop sorted 0 1, some sorted.length⟩

/-- Embedding of `getHabitStreak` (src/index.js:489-535): `logs = habitLogs[habitId] || {}`,
then the streak computation over the date keys, abstracted to day numbers by
`val`; `today` is the day number of `new Date().toISOString().split('T')[0]`. -/
def getHabitStreak (st : JournalData) (habitId : String) (val : String → Int)
    (today : Int) : Streak :=
  let logs := (lookupKey habitId st.habitLogs).getD []
  streakOfDates (logs.map (fun p => val p.1)) today

/-- JS `Math.round`: round half toward positive infinity. -/
def jsRound (q : ℚ) : Int := ⌊q + 1 / 2⌋

/-- Completion statistics (src/index.js:556-563). -/
structure HabitStats where
  habitName : String
  period : Nat
  completedDays : Nat
  missedDays : Int
  completionRate : ℚ
  streak : Streak
deriving DecidableEq, Repr

/-- Embedding of `getHabitStats` (src/index.js:543-564): `NotFound` for an unknown habit;
otherwise count the entries of the inclusive window
`[today - (days-1), today]` (the source's generated `startDate`/`endDate`
strings, as day numbers), and round the percentage to one decimal with
`Math.round(rate * 10) / 10`. -/
def getHabitStats (st : JournalData) (habitId : String) (days : Nat)
    (val : String → Int) (today : Int) : Except JErr HabitStats :=
  match lookupKey habitId st.habits with
  | none => .error .notFound
  | some habit =>
    let logs := getHabitLogs st habitId val (some (today - ((days : Int) - 1))) (some today)
    let completedDays := logs.length
    let completionRate : ℚ := (completedDays : ℚ) / (days : ℚ) * 100
    .ok
      { habitName := habit.name
        period := days
        completedDays := completedDays
        missedDays := (days : Int) - completedDays
        completionRate := (jsRound (completionRate * 10) : ℚ) / 10
        streak := getHabitStreak st habitId val today }

/-- A parsed import document (src/index.js:771-778): the five top-level keys,
each possibly absent. -/
structure ImportDoc where
  dailyLogs : Option (List (String × DailyLog))
  monthlyLogs : Option (List (String × MonthlyLog))
  yearlyLogs : Option (List (String × YearlyLog))
  habits : Option (List (String × Habit))
  habitLogs : Option (List (String × List (String × HabitLog)))
deriving DecidableEq, Repr

/-- Input to `importData`: `JSON.parse` either fails (`malformed`) or yields a
document.  `JSON.parse ∘ JSON.stringify` is the identity on the plain
string/number/boolean/array/object data of the aggregate, which is what
makes `exportData` below produce a `doc` holding the aggregate itself. -/
inductive JsonInput where
  | malformed
  | doc (d : ImportDoc)
deriving DecidableEq, Repr

/-- Embedding of `exportData` (src/index.js:761-763): serialize the whole aggregate (all
five top-level keys present). -/
def exportData (st : JournalData) : JsonInput :=
  .doc ⟨some st.dailyLogs, some st.monthlyLogs, some st.yearlyLogs, some st.habits,
    some st.habitLogs⟩

/-- Embedding of `importData` (src/index.js:769-783): a parse failure raises
`InvalidFormat` with the prior aggregate untouched; otherwise the aggregate
is replaced wholesale, missing top-level keys defaulting to empty objects. -/
def importData (st : JournalData) (j : JsonInput) : JournalData × Except JErr Unit :=
  match j with
  | .malformed => (st, .error .invalidFormat)
  | .doc d =>
    (⟨d.dailyLogs.getD [], d.monthlyLogs.getD [], d.yearlyLogs.getD [],
      d.habits.getD [], d.habitLogs.getD []⟩, .ok ())

/-! ### Association-list lemmas -/

theorem lookupKey_setKey_self {α β : Type} [DecidableEq α] (k : α) (v : β)
    (l : List (α × β)) : lookupKey k (setKey k v l) = some v := by
  induction l with
  | nil => simp [setKey, lookupKey]
  | cons p rest ih =>
    by_cases h : p.1 = k
    · simp [setKey, h, lookupKey]
    · simp [setKey, h, lookupKey, ih]

theorem lookupKey_setKey_ne {α β : Type} [DecidableEq α] {k' k : α} (v : β)
    (l : List (α × β)) (h : k' ≠ k) :
    lookupKey k' (setKey k v l) = lookupKey k' l := by
  induction l with
  | nil => simp [setKey, lookupKey, Ne.symm h]
  | cons p rest ih =>
    by_cases hp : p.1 = k
    · have hpk' : ¬p.1 = k' := by rw [hp]; exact Ne.symm h
      simp [setKey, hp, lookupKey, Ne.symm h, hpk']
    · simp [setKey, hp, lookupKey, ih]

theorem setKey_setKey {α β : Type} [DecidableEq α] (k : α) (v₁ v₂ : β)
    (l : List (α × β)) : setKey k v₂ (setKey k v₁ l) = setKey k v₂ l := by
  induction l with
  | nil => simp [setKey]
  | cons p rest ih =>
    by_cases h : p.1 = k
    · simp [setKey, h]
    · simp [setKey, h, ih]

theorem mem_setKey_self {α β : Type} [DecidableEq α] (k : α) (v : β)
    (l : List (α × β)) : (k, v) ∈ setKey k v l := by
  induction l with
  | nil => simp [setKey]
  | cons p rest ih =>
    by_cases h : p.1 = k
    · simp [setKey, h]
    · simp [setKey, h, ih]

theorem map_fst_setKey {α β : Type} [DecidableEq α] (k : α) (v₁ v₂ : β)
    (l : List (α × β)) :
    (setKey k v₁ l).map Prod.fst = (setKey k v₂ l).map Prod.fst := by
  induction l with
  | nil => simp [setKey]
  | cons p rest ih =>
    by_cases h : p.1 = k
    · simp [setKey, h]
    · simp [setKey, h, ih]

theorem keyUnique {α β : Type} {l : List (α × β)} (hnd : (l.map Prod.fst).Nodup)
    {k : α} {v₁ v₂ : β} (h₁ : (k, v₁) ∈ l) (h₂ : (k, v₂) ∈ l) : v₁ = v₂ := by
  induction l with
  | nil => cases h₁
  | cons p rest ih =>
    simp only [List.map_cons, List.nodup_cons] at hnd
    rcases List.mem_cons.1 h₁ with h₁ | h₁ <;> rcases List.mem_cons.1 h₂ with h₂ | h₂
    · exact congrArg Prod.snd (h₁.trans h₂.symm)
    · exfalso
      apply hnd.1
      have hm := List.mem_map_of_mem Prod.fst h₂
      rw [← h₁]
      exact hm
    · exfalso
      apply hnd.1
      have hm := List.mem_map_of_mem Prod.fst h₁
      rw [← h₂]
      exact hm
    · exact ih hnd.2 h₁ h₂

/-! ### The spec's date-format pattern (spec §4.1) -/

/-- The spec's wording for `isValidDate`: "exactly 4 digits, `-`, 2 digits,
`-`, 2 digits". -/
def DatePattern (s : String) : Prop :=
  ∃ y1 y2 y3 y4 m1 m2 d1 d2 : Char,
    s.data = [y1, y2, y3, y4, '-', m1, m2, '-', d1, d2] ∧
    y1.isDigit = true ∧ y2.isDigit = true ∧ y3.isDigit = true ∧ y4.isDigit = true ∧
    m1.isDigit = true ∧ m2.isDigit = true ∧ d1.isDigit = true ∧ d2.isDigit = true

theorem validDate_iff_pattern (s : String) : isValidDate s = true ↔ DatePattern s := by
  cases s with
  | mk l =>
    constructor
    · intro h
      unfold isValidDate at h
      rcases l with _ | ⟨c1, _ | ⟨c2, _ | ⟨c3, _ | ⟨c4, _ | ⟨c5, _ | ⟨c6, _ | ⟨c7, _ | ⟨c8, _ |
        ⟨c9, _ | ⟨c10, _ | ⟨c11, rest⟩⟩⟩⟩⟩⟩⟩⟩⟩⟩⟩ <;> try exact Bool.noConfusion h
      simp only [Bool.and_eq_true, beq_iff_eq] at h
      obtain ⟨⟨⟨⟨⟨⟨⟨⟨⟨h1, h2⟩, h3⟩, h4⟩, h5⟩, h6⟩, h7⟩, h8⟩, h9⟩, h10⟩ := h
      subst h5
      subst h8
      exact ⟨c1, c2, c3, c4, c6, c7, c9, c10, rfl, h1, h2, h3, h4, h6, h7, h9, h10⟩
    · rintro ⟨y1, y2, y3, y4, m1, m2, d1, d2, hdata, h1, h2, h3, h4, h5, h6, h7, h8⟩
      have hl : l = [y1, y2, y3, y4, '-', m1, m2, '-', d1, d2] := hdata
      subst hl
      unfold isValidDate
      simp [h1, h2, h3, h4, h5, h6, h7, h8]

/-! ### Claim C6: export/import round trip -/

/-- C6: `importData (exportData st)` reproduces an observably identical
aggregate; importing a parseable document replaces the aggregate wholesale
with missing top-level keys defaulting to empty collections; importing a
malformed document signals `InvalidFormat` and leaves the prior in-memory
state untouched. -/
theorem c6_importExport_roundTrip :
    (∀ st : JournalData, importData st (exportData st) = (st, .ok ()))
    ∧ (∀ (st : JournalData) (d : ImportDoc),
        (importData st (.doc d)).1
          = ⟨d.dailyLogs.getD [], d.monthlyLogs.getD [], d.yearlyLogs.getD [],
             d.habits.getD [], d.habitLogs.getD []⟩)
    ∧ (∀ st : JournalData, importData st .malformed = (st, .error .invalidFormat)) :=
  ⟨fun _ => rfl, fun _ _ => rfl, fun _ => rfl⟩

/-! ### Claim C7 (corrected): date format validation -/

/-- C7 counterexample: the claim calls `'2025-13-01'` "a date string failing
this check", but `isValidDate` accepts it (the regex checks digit shape only),
so `addDailyLog` succeeds and stores the log rather than raising
`InvalidFormat`. -/
theorem c7_invalidMonth_counterexample :
    isValidDate "2025-13-01" = true
    ∧ (addDailyLog initialData "2025-13-01" ⟨none, none, none, none⟩ "t").2
        = .ok (mkDailyEntry "2025-13-01" ⟨none, none, none, none⟩ "t")
    ∧ lookupKey "2025-13-01"
        (addDailyLog initialData "2025-13-01" ⟨none, none, none, none⟩ "t").1.dailyLogs
        = some (mkDailyEntry "2025-13-01" ⟨none, none, none, none⟩ "t") :=
  ⟨by decide, by decide, by decide⟩

/-- C7 as amended: `isValidDate s` is true iff `s` matches exactly 4 digits,
`-`, 2 digits, `-`, 2 digits, with no calendar-validity check (so
`'2025-13-99'` passes — and therefore `'2025-13-01'` also passes and is
stored); `addDailyLog` called with a date string that does fail this check
raises `InvalidFormat` and stores nothing, leaving the aggregate unchanged. -/
theorem c7_dateFormat_amended :
    (∀ s : String, isValidDate s = true ↔ DatePattern s)
    ∧ isValidDate "2025-13-99" = true
    ∧ (∀ (st : JournalData) (d : String) (e : EntryInput) (now : String),
        isValidDate d = false → addDailyLog st d e now = (st, .error .invalidFormat)) :=
  ⟨validDate_iff_pattern, by decide,
   fun st d e now h => by simp [addDailyLog, h]⟩

/-- C7 witness: the amended theorem applied at the malformed date
`"2025-1-01"`. -/
theorem c7_dateFormat_witness :
    isValidDate "2025-1-01" = false
    ∧ addDailyLog initialData "2025-1-01" ⟨none, none, none, none⟩ "t"
        = (initialData, .error .invalidFormat) :=
  ⟨by decide,
   c7_dateFormat_amended.2.2 initialData "2025-1-01" ⟨none, none, none, none⟩ "t" (by decide)⟩

/-! ### Claim C10: addDailyLog replaces an existing log wholesale -/

/-- C10: for a valid date that already has a daily log, `addDailyLog` signals
no error and replaces the existing log wholesale with the newly built entry
(the prior entry is discarded, not merged — the stored value depends only on
the new input), while every other date's log is unchanged. -/
theorem c10_overwrite (st : JournalData) (date : String) (entry : EntryInput)
    (now : String) (old : DailyLog) (hv : isValidDate date = true)
    (hold : lookupKey date st.dailyLogs = some old) :
    (addDailyLog st date entry now).2 = .ok (mkDailyEntry date entry now)
    ∧ lookupKey date (addDailyLog st date entry now).1.dailyLogs
        = some (mkDailyEntry date entry now)
    ∧ (∀ d, d ≠ date →
        lookupKey d (addDailyLog st date entry now).1.dailyLogs
          = lookupKey d st.dailyLogs) := by
  have hbr : addDailyLog st date entry now
      = ({ st with dailyLogs := setKey date (mkDailyEntry date entry now) st.dailyLogs },
         .ok (mkDailyEntry date entry now)) := by
    simp [addDailyLog, hv]
  rw [hbr]
  exact ⟨rfl, lookupKey_setKey_self date _ st.dailyLogs,
    fun d hd => lookupKey_setKey_ne _ st.dailyLogs hd⟩

def entryW : EntryInput := ⟨some [.str "buy milk"], some ["n1"], none, some ["a"]⟩

def entryW2 : EntryInput := ⟨none, none, none, some ["b"]⟩

def stW10 : JournalData := (addDailyLog initialData "2025-01-02" entryW "t1").1

/-- C10 witness: overwriting the existing log for `2025-01-02`. -/
theorem c10_overwrite_witness :
    isValidDate "2025-01-02" = true
    ∧ lookupKey "2025-01-02" stW10.dailyLogs = some (mkDailyEntry "2025-01-02" entryW "t1")
    ∧ lookupKey "2025-01-02" (addDailyLog stW10 "2025-01-02" entryW2 "t2").1.dailyLogs
        = some (mkDailyEntry "2025-01-02" entryW2 "t2") :=
  ⟨by decide, by decide,
   (c10_overwrite stW10 "2025-01-02" entryW2 "t2" (mkDailyEntry "2025-01-02" entryW "t1")
     (by decide) (by decide)).2.1⟩

/-! ### Claim C5 (corrected): logHabit error precedence and upsert -/

theorem map_val_setKey {β : Type} (val : String → Int) (date : String) (w₁ w₂ : β)
    (l : List (String × β)) :
    (setKey date w₁ l).map (fun p => val p.1) = (setKey date w₂ l).map (fun p => val p.1) := by
  induction l with
  | nil => simp [setKey]
  | cons p rest ih =>
    by_cases h : p.1 = date <;> simp [setKey, h, ih]

theorem logHabit_ok (st : JournalData) (hid date : String) (ld : LogInput) (now : String)
    (hb : Habit) (hs : lookupKey hid st.habits = some hb) (hv : isValidDate date = true) :
    logHabit st hid date ld now
      = ({ st with habitLogs := setKey hid (setKey date (mkHabitLog date ld now)
            ((lookupKey hid st.habitLogs).getD [])) st.habitLogs },
         .ok (mkHabitLog date ld now)) := by
  simp [logHabit, hs, hv]

/-- C5 counterexample: for an unregistered habit *and* a malformed date,
`logHabit` raises `NotFound` (the habit check runs first), not the
`InvalidFormat` the claim's "fails with InvalidFormat exactly when the date
fails validation" requires. -/
theorem c5_logHabit_counterexample :
    isValidDate "bad" = false
    ∧ (logHabit initialData "h" "bad" ⟨none, none⟩ "t").2 = .error .notFound
    ∧ JErr.notFound ≠ JErr.invalidFormat :=
  ⟨by decide, by decide, by decide⟩

/-- C5 as amended: `logHabit` fails with `NotFound` exactly when the habit is
unregistered, and with `InvalidFormat` exactly when the habit is registered
and the date fails validation (`NotFound` takes precedence when both
conditions hold), with no state change in either case; otherwise it
overwrites the habit-log entry for that (habit, date) pair, so logging twice
for the same day is idempotent in effect (the second call's notes/value
replace the first's — the resulting aggregate equals the one from the second
call alone) and re-logging an already-logged date does not change the streaks
(longest included). -/
theorem c5_logHabit_amended (st : JournalData) (hid date : String)
    (ld₁ ld₂ : LogInput) (now₁ now₂ : String) :
    (lookupKey hid st.habits = none →
        logHabit st hid date ld₁ now₁ = (st, .error .notFound))
    ∧ (∀ hb, lookupKey hid st.habits = some hb → isValidDate date = false →
        logHabit st hid date ld₁ now₁ = (st, .error .invalidFormat))
    ∧ (∀ hb, lookupKey hid st.habits = some hb → isValidDate date = true →
        (logHabit st hid date ld₁ now₁).2 = .ok (mkHabitLog date ld₁ now₁)
        ∧ lookupKey date
            ((lookupKey hid (logHabit st hid date ld₁ now₁).1.habitLogs).getD [])
            = some (mkHabitLog date ld₁ now₁)
        ∧ (logHabit (logHabit st hid date ld₁ now₁).1 hid date ld₂ now₂).1
            = (logHabit st hid date ld₂ now₂).1
        ∧ ∀ (val : String → Int) (today : Int),
            getHabitStreak (logHabit (logHabit st hid date ld₁ now₁).1 hid date ld₂ now₂).1
                hid val today
              = getHabitStreak (logHabit st hid date ld₁ now₁).1 hid val today) := by
  refine ⟨fun hn => by simp [logHabit, hn], fun hb hs hv => by simp [logHabit, hs, hv],
    fun hb hs hv => ?_⟩
  have e₁ := logHabit_ok st hid date ld₁ now₁ hb hs hv
  have e₂ := logHabit_ok st hid date ld₂ now₂ hb hs hv
  have e₃ := logHabit_ok
    ({ st with habitLogs := setKey hid (setKey date (mkHabitLog date ld₁ now₁)
        ((lookupKey hid st.habitLogs).getD [])) st.habitLogs })
    hid date ld₂ now₂ hb hs hv
  refine ⟨by rw [e₁], ?_, ?_, ?_⟩
  · rw [e₁]
    simp [lookupKey_setKey_self]
  · rw [e₁]
    simp only [e₃, e₂]
    simp [lookupKey_setKey_self, setKey_setKey]
  · intro val today
    rw [e₁]
    simp only [e₃]
    simp only [getHabitStreak, lookupKey_setKey_self, Option.getD_some, setKey_setKey]
    rw [map_val_setKey val date (mkHabitLog date ld₂ now₂) (mkHabitLog date ld₁ now₁)]

def habitW : Habit := ⟨"h", "H", "", "daily", 1, [], "t0"⟩

def stHabW : JournalData := ⟨[], [], [], [("h", habitW)], []⟩

/-- C5 witness: re-logging `2025-01-01` for habit `"h"` yields the same
aggregate as logging it once with the second call's data. -/
theorem c5_logHabit_witness :
    lookupKey "h" stHabW.habits = some habitW
    ∧ isValidDate "2025-01-01" = true
    ∧ (logHabit (logHabit stHabW "h" "2025-01-01" ⟨some "a", none⟩ "t1").1
        "h" "2025-01-01" ⟨some "b", none⟩ "t2").1
        = (logHabit stHabW "h" "2025-01-01" ⟨some "b", none⟩ "t2").1 :=
  ⟨by decide, by decide,
   ((c5_logHabit_amended stHabW "h" "2025-01-01" ⟨some "a", none⟩ ⟨some "b", none⟩
       "t1" "t2").2.2 habitW (by decide) (by decide)).2.2.1⟩

/-! ### Claim C1 (corrected): tag-query case sensitivity -/

theorem addDailyLog_ok (st : JournalData) (date : String) (entry : EntryInput)
    (now : String) (hv : isValidDate date = true) :
    addDailyLog st date entry now
      = ({ st with dailyLogs := setKey date (mkDailyEntry date entry now) st.dailyLogs },
         .ok (mkDailyEntry date entry now)) := by
  simp [addDailyLog, hv]

def st1C : JournalData :=
  (addDailyLog initialData "2025-01-01" ⟨none, none, none, some ["Work"]⟩ "t").1

/-- C1 counterexample: a daily log created with tag `"Work"` (stored verbatim
by `addDailyLog`, which does not lowercase tags) is *not* returned by
`getLogsByTag "work"` — the result is empty although the log exists. -/
theorem c1_tagCase_counterexample :
    getLogsByTag st1C "work" = []
    ∧ lookupKey "2025-01-01" st1C.dailyLogs
        = some (mkDailyEntry "2025-01-01" ⟨none, none, none, some ["Work"]⟩ "t")
    ∧ (mkDailyEntry "2025-01-01" ⟨none, none, none, some ["Work"]⟩ "t").tags = ["Work"] :=
  ⟨by decide, by decide, by decide⟩

/-- C1 as amended: tag queries are case-insensitive with respect to the query
only — `getLogsByTag` lowercases the query tag, so two queries with the same
lowercase form always return the same result set — but `addDailyLog` stores
tags verbatim without lowercasing, so a freshly created log is included in
the result exactly when its stored tag list contains the lowercase form of
the query (a log created with tag `"Work"` is therefore never returned; one
created with `"work"` is returned for `"work"`, `"WORK"`, ...). -/
theorem c1_tagCase_amended :
    (∀ (st : JournalData) (q₁ q₂ : String), lowerStr q₁ = lowerStr q₂ →
        getLogsByTag st q₁ = getLogsByTag st q₂)
    ∧ (∀ (st : JournalData) (date : String) (entry : EntryInput) (now q : String),
        isValidDate date = true →
        ((date, mkDailyEntry date entry now)
            ∈ getLogsByTag (addDailyLog st date entry now).1 q
          ↔ (entry.tags.getD []).contains (lowerStr q) = true)) := by
  constructor
  · intro st q₁ q₂ h
    unfold getLogsByTag
    rw [h]
  · intro st date entry now q hv
    rw [addDailyLog_ok st date entry now hv]
    unfold getLogsByTag
    constructor
    · intro hm
      exact (List.mem_filter.1 hm).2
    · intro hc
      exact List.mem_filter.2 ⟨mem_setKey_self date _ st.dailyLogs, hc⟩

/-- C1 witness: the amended theorem at a log created with the lowercase tag
`"work"` and the query `"WORK"`. -/
theorem c1_tagCase_witness :
    isValidDate "2025-01-01" = true
    ∧ (("2025-01-01", mkDailyEntry "2025-01-01" ⟨none, none, none, some ["work"]⟩ "t")
          ∈ getLogsByTag
              (addDailyLog initialData "2025-01-01" ⟨none, none, none, some ["work"]⟩ "t").1
              "WORK"
        ↔ (["work"].contains (lowerStr "WORK") = true)) :=
  ⟨by decide,
   c1_tagCase_amended.2 initialData "2025-01-01" ⟨none, none, none, some ["work"]⟩ "t" "WORK"
     (by decide)⟩

/-! ### Claim C8: getLogsByTags is the by-date intersection -/

def stW8 : JournalData :=
  (addDailyLog initialData "2025-01-01" ⟨none, none, none, some ["a", "b"]⟩ "t").1

/-- C8: `getLogsByTags [a, b]` contains a date exactly when both
`getLogsByTag a` and `getLogsByTag b` contain it (intersection by date), and
`getLogsByTags []` returns every daily log. -/
theorem c8_tagsAnd (st : JournalData) (a b : String)
    (hnd : (st.dailyLogs.map Prod.fst).Nodup) :
    (∀ d : String,
        (∃ l, (d, l) ∈ getLogsByTags st [a, b])
          ↔ ((∃ l, (d, l) ∈ getLogsByTag st a) ∧ (∃ l, (d, l) ∈ getLogsByTag st b)))
    ∧ getLogsByTags st [] = st.dailyLogs := by
  constructor
  · intro d
    constructor
    · rintro ⟨l, hm⟩
      obtain ⟨hmem, hpred⟩ := List.mem_filter.1 hm
      simp only [List.map_cons, List.map_nil, List.all_cons, List.all_nil, Bool.and_eq_true,
        Bool.and_true] at hpred
      exact ⟨⟨l, List.mem_filter.2 ⟨hmem, hpred.1⟩⟩, ⟨l, List.mem_filter.2 ⟨hmem, hpred.2⟩⟩⟩
    · rintro ⟨⟨l₁, h₁⟩, ⟨l₂, h₂⟩⟩
      obtain ⟨hm₁, hp₁⟩ := List.mem_filter.1 h₁
      obtain ⟨hm₂, hp₂⟩ := List.mem_filter.1 h₂
      have hl : l₁ = l₂ := keyUnique hnd hm₁ hm₂
      subst hl
      refine ⟨l₁, List.mem_filter.2 ⟨hm₁, ?_⟩⟩
      simp only [List.map_cons, List.map_nil, List.all_cons, List.all_nil, Bool.and_eq_true,
        Bool.and_true]
      exact ⟨hp₁, hp₂⟩
  · simp [getLogsByTags]

/-- C8 witness: the theorem at a state holding one log tagged `a` and `b`. -/
theorem c8_tagsAnd_witness :
    (stW8.dailyLogs.map Prod.fst).Nodup
    ∧ ((∃ l, ("2025-01-01", l) ∈ getLogsByTags stW8 ["a", "b"])
        ↔ ((∃ l, ("2025-01-01", l) ∈ getLogsByTag stW8 "a")
           ∧ (∃ l, ("2025-01-01", l) ∈ getLogsByTag stW8 "b"))) :=
  ⟨by decide, (c8_tagsAnd stW8 "a" "b" (by decide)).1 "2025-01-01"⟩

/-! ### Claim C9 (corrected): behaviour for an absent habit-log collection -/

def orphanDoc : ImportDoc :=
  ⟨none, none, none, none, some [("h", [("2025-01-01", ⟨"2025-01-01", true, "", 1, "t"⟩)])]⟩

def stOrph : JournalData := (importData initialData (.doc orphanDoc)).1

/-- C9 counterexample: an identifier can be unregistered (absent from
`habits`) while habit-log entries for it exist — `importData` accepts such a
document — and then `getHabitStreak` does *not* return `{current: 0,
longest: 0}` and `getHabitLogs` is not empty, because both consult only
`habitLogs`, never `habits`. -/
theorem c9_unregistered_counterexample :
    lookupKey "h" stOrph.habits = none
    ∧ getHabitStreak stOrph "h" (fun _ => 0) 5 = ⟨0, 1, some 1⟩
    ∧ (⟨0, 1, some 1⟩ : Streak) ≠ ⟨0, 0, none⟩
    ∧ getHabitLogs stOrph "h" (fun _ => 0) none none ≠ [] :=
  ⟨by decide, by decide, by decide, by decide⟩

/-- C9 as amended: for every habit identifier with *no habit-log collection*
(which coincides with "not registered" in every state whose habit-log
collections exist only for registered habits — the invariant maintained by
`createHabit`/`logHabit`/`deleteHabit`, though `importData` can break it),
`getHabitStreak` returns `{current: 0, longest: 0}` (no `totalCompletions`
field) and `getHabitLogs` returns an empty collection, and neither signals
an error; `getHabitStats`, by contrast, signals `NotFound` for every
unregistered identifier. -/
theorem c9_unregistered_amended (st : JournalData) (hid : String) :
    (lookupKey hid st.habitLogs = none →
        (∀ (val : String → Int) (today : Int),
            getHabitStreak st hid val today = ⟨0, 0, none⟩)
        ∧ (∀ (val : String → Int) (startD endD : Option Int),
            getHabitLogs st hid val startD endD = []))
    ∧ (lookupKey hid st.habits = none →
        ∀ (val : String → Int) (today : Int) (days : Nat),
          getHabitStats st hid days val today = .error .notFound) := by
  refine ⟨fun h => ⟨?_, ?_⟩, fun hn => ?_⟩
  · intro val today
    simp [getHabitStreak, h, streakOfDates]
  · intro val s e
    simp [getHabitLogs, h]
  · intro val today days
    simp [getHabitStats, hn]

/-- C9 witness: the amended theorem at the empty aggregate with an unknown
identifier, and — for the `getHabitStats` clause — at the orphan-logs state
of the counterexample, where the identifier is unregistered even though a
habit-log collection for it exists. -/
theorem c9_unregistered_witness :
    lookupKey "nope" initialData.habitLogs = none
    ∧ getHabitStreak initialData "nope" (fun _ => 0) 0 = ⟨0, 0, none⟩
    ∧ lookupKey "h" stOrph.habits = none
    ∧ getHabitStats stOrph "h" 3 (fun _ => 0) 5 = .error .notFound :=
  ⟨by decide,
   ((c9_unregistered_amended initialData "nope").1 (by decide)).1 (fun _ => 0) 0,
   by decide,
   (c9_unregistered_amended stOrph "h").2 (by decide) (fun _ => 0) 5 3⟩

/-! ### Claim C2: getHabitStats -/

/-- The day numbers of the dates in a habit's log collection (the source's
`Object.keys(logs)` under the day-number valuation). -/
def habitDates (st : JournalData) (hid : String) (val : String → Int) : List Int :=
  ((lookupKey hid st.habitLogs).getD []).map (fun p => val p.1)

theorem getHabitLogs_some_some (st : JournalData) (hid : String) (val : String → Int)
    (a b : Int) :
    getHabitLogs st hid val (some a) (some b)
      = ((lookupKey hid st.habitLogs).getD []).filter (fun p =>
          decide (a ≤ val p.1) && decide (val p.1 ≤ b)) := by
  unfold getHabitLogs
  cases lookupKey hid st.habitLogs with
  | none => simp
  | some logs => simp [Option.all]

/-- C2: for a registered habit and window size `N > 0`, `getHabitStats`
returns `completedDays` = the number of habit-log entries whose date lies in
the inclusive window `[today - (N-1), today]`, `missedDays = N -
completedDays` (so they always sum to `N`), and `completionRate` =
`100 · completedDays / N` rounded to one decimal place; for an unknown habit
identifier it signals `NotFound`. -/
theorem c2_habitStats (st : JournalData) (hid : String) (days : Nat)
    (val : String → Int) (today : Int) :
    (lookupKey hid st.habits = none →
        getHabitStats st hid days val today = .error .notFound)
    ∧ (∀ hb, lookupKey hid st.habits = some hb → 0 < days →
        ∃ s, getHabitStats st hid days val today = .ok s
          ∧ s.completedDays = (((lookupKey hid st.habitLogs).getD []).filter (fun p =>
              decide (today - ((days : Int) - 1) ≤ val p.1)
                && decide (val p.1 ≤ today))).length
          ∧ (s.completedDays : Int) + s.missedDays = (days : Int)
          ∧ s.completionRate
              = ((⌊100 * (s.completedDays : ℚ) / (days : ℚ) * 10 + 1 / 2⌋ : ℚ)) / 10) := by
  constructor
  · intro hn
    simp [getHabitStats, hn]
  · intro hb hs hdays
    have heq : getHabitStats st hid days val today
        = .ok { habitName := hb.name
                period := days
                completedDays :=
                  (getHabitLogs st hid val (some (today - ((days : Int) - 1)))
                    (some today)).length
                missedDays := (days : Int) -
                  (getHabitLogs st hid val (some (today - ((days : Int) - 1)))
                    (some today)).length
                completionRate :=
                  (jsRound (((getHabitLogs st hid val (some (today - ((days : Int) - 1)))
                      (some today)).length : ℚ) / (days : ℚ) * 100 * 10) : ℚ) / 10
                streak := getHabitStreak st hid val today } := by
      simp [getHabitStats, hs]
    refine ⟨_, heq, ?_, ?_, ?_⟩
    · simp only [getHabitLogs_some_some]
    · show ((getHabitLogs st hid val (some (today - ((days : Int) - 1)))
          (some today)).length : Int)
        + ((days : Int) -
            (getHabitLogs st hid val (some (today - ((days : Int) - 1)))
              (some today)).length) = (days : Int)
      omega
    · show (jsRound (((getHabitLogs st hid val (some (today - ((days : Int) - 1)))
            (some today)).length : ℚ) / (days : ℚ) * 100 * 10) : ℚ) / 10
        = ((⌊100 * (((getHabitLogs st hid val (some (today - ((days : Int) - 1)))
            (some today)).length : ℚ)) / (days : ℚ) * 10 + 1 / 2⌋ : ℚ)) / 10
      unfold jsRound
      congr 3
      ring

def habitLogW (d : String) : HabitLog := ⟨d, true, "", 1, "t"⟩

def stW2 : JournalData :=
  ⟨[], [], [], [("h", habitW)],
   [("h", [("2025-01-10", habitLogW "2025-01-10"), ("2025-01-03", habitLogW "2025-01-03")])]⟩

def valW2 : String → Int := fun s => if s = "2025-01-10" then 10 else 3

/-- C2 witness: the theorem at a registered habit with one log inside the
4-day window ending on day 10 and one outside it. -/
theorem c2_habitStats_witness :
    lookupKey "h" stW2.habits = some habitW
    ∧ 0 < 4
    ∧ ∃ s, getHabitStats stW2 "h" 4 valW2 10 = .ok s
        ∧ s.completedDays = (((lookupKey "h" stW2.habitLogs).getD []).filter (fun p =>
            decide ((10 : Int) - ((4 : Int) - 1) ≤ valW2 p.1)
              && decide (valW2 p.1 ≤ (10 : Int)))).length
        ∧ (s.completedDays : Int) + s.missedDays = ((4 : Nat) : Int)
        ∧ s.completionRate
            = ((⌊100 * (s.completedDays : ℚ) / ((4 : Nat) : ℚ) * 10 + 1 / 2⌋ : ℚ)) / 10 :=
  ⟨by decide, by decide,
   (c2_habitStats stW2 "h" 4 valW2 10).2 habitW (by decide) (by decide)⟩

/-! ### Claim C3: current streak -/

theorem countBack_mem (ds : List Int) :
    ∀ (f : Nat) (d : Int) (i : Nat), i < countBack ds f d → (d - (i : Int)) ∈ ds := by
  intro f
  induction f with
  | zero => intro d i hi; simp [countBack] at hi
  | succ f ih =>
    intro d i hi
    by_cases hd : d ∈ ds
    · simp only [countBack, if_pos hd] at hi
      cases i with
      | zero => simpa using hd
      | succ j =>
        have hj : j < countBack ds f (d - 1) := by omega
        have := ih (d - 1) j hj
        have harith : d - ((j + 1 : Nat) : Int) = d - 1 - (j : Int) := by push_cast; ring
        rw [harith]
        exact this
    · simp [countBack, if_neg hd] at hi

theorem countBack_next (ds : List Int) :
    ∀ (f : Nat) (d : Int), countBack ds f d < f → (d - (countBack ds f d : Int)) ∉ ds := by
  intro f
  induction f with
  | zero => intro d h; omega
  | succ f ih =>
    intro d h
    by_cases hd : d ∈ ds
    · simp only [countBack, if_pos hd] at h ⊢
      have hf : countBack ds f (d - 1) < f := by omega
      have := ih (d - 1) hf
      have harith : d - ((1 + countBack ds f (d - 1) : Nat) : Int)
          = d - 1 - (countBack ds f (d - 1) : Int) := by push_cast; ring
      rw [harith]
      exact this
    · simp only [countBack, if_neg hd]
      simpa using hd

theorem countBack_saturation (ds : List Int) (today : Int)
    (ht : today ∈ ds) : countBack ds ds.length (today - 1) < ds.length := by
  by_contra hc
  push_neg at hc
  set L : List Int :=
    today :: List.map (fun i : Nat => today - 1 - (i : Int)) (List.range ds.length)
    with hL
  have hinj : Function.Injective (fun i : Nat => today - 1 - (i : Int)) := by
    intro a b hab
    simp only at hab
    omega
  have hndL : L.Nodup := by
    rw [hL]
    refine List.Nodup.cons ?_ (List.Nodup.map hinj (List.nodup_range _))
    intro hmem
    obtain ⟨i, _, hi⟩ := List.mem_map.1 hmem
    omega
  have hsub : L ⊆ ds := by
    intro x hx
    rcases List.mem_cons.1 hx with rfl | hx
    · exact ht
    · obtain ⟨i, hi, rfl⟩ := List.mem_map.1 hx
      have hic : i < countBack ds ds.length (today - 1) :=
        lt_of_lt_of_le (List.mem_range.1 hi) hc
      exact countBack_mem ds ds.length (today - 1) i hic
  have hlen : L.length ≤ ds.length := (List.subperm_of_subset hndL hsub).length_le
  simp only [hL, List.length_cons, List.length_map, List.length_range] at hlen
  omega

theorem current_eq (dates : List Int) (today : Int) :
    (streakOfDates dates today).current
      = if today ∈ dates then 1 + countBack dates dates.length (today - 1) else 0 := by
  unfold streakOfDates
  by_cases h : dates = []
  · subst h; simp
  · simp [h]

/-- C3: `getHabitStreak` returns `current` equal to the number of consecutive
calendar days counting backward from today that each have a habit-log entry:
every day in `[today - current + 1, today]` is logged while `today - current`
is not (in particular, if today is not logged the current streak is 0), and
whenever the logged dates are exactly `N > 0` consecutive days ending today,
`current = N`. -/
theorem c3_currentStreak (st : JournalData) (hid : String) (val : String → Int)
    (today : Int) :
    (today ∉ habitDates st hid val → (getHabitStreak st hid val today).current = 0)
    ∧ (∀ i : Nat, i < (getHabitStreak st hid val today).current →
        (today - (i : Int)) ∈ habitDates st hid val)
    ∧ (today - ((getHabitStreak st hid val today).current : Int)) ∉ habitDates st hid val
    ∧ (∀ N : Nat, 0 < N →
        (∀ x : Int, x ∈ habitDates st hid val ↔ ∃ i : Nat, i < N ∧ x = today - (i : Int)) →
        (getHabitStreak st hid val today).current = N) := by
  have hstreak : getHabitStreak st hid val today
      = streakOfDates (habitDates st hid val) today := rfl
  set ds := habitDates st hid val with hds
  have hcur := current_eq ds today
  have part1 : today ∉ ds → (streakOfDates ds today).current = 0 := by
    intro h; rw [hcur, if_neg h]
  have part2 : ∀ i : Nat, i < (streakOfDates ds today).current →
      (today - (i : Int)) ∈ ds := by
    intro i hi
    rw [hcur] at hi
    by_cases hd : today ∈ ds
    · rw [if_pos hd] at hi
      cases i with
      | zero => simpa using hd
      | succ j =>
        have hj : j < countBack ds ds.length (today - 1) := by omega
        have := countBack_mem ds ds.length (today - 1) j hj
        have harith : today - ((j + 1 : Nat) : Int) = today - 1 - (j : Int) := by
          push_cast; ring
        rw [harith]
        exact this
    · rw [if_neg hd] at hi; omega
  have part3 : (today - ((streakOfDates ds today).current : Int)) ∉ ds := by
    rw [hcur]
    by_cases hd : today ∈ ds
    · rw [if_pos hd]
      have hsat := countBack_saturation ds today hd
      have := countBack_next ds ds.length (today - 1) hsat
      have harith : today - ((1 + countBack ds ds.length (today - 1) : Nat) : Int)
          = today - 1 - (countBack ds ds.length (today - 1) : Int) := by push_cast; ring
      rw [harith]
      exact this
    · rw [if_neg hd]; simpa using hd
  refine ⟨by rw [hstreak]; exact part1, by rw [hstreak]; exact part2,
    by rw [hstreak]; exact part3, ?_⟩
  intro N hN hset
  rw [hstreak]
  set c := (streakOfDates ds today).current with hc
  by_contra hne
  rcases Nat.lt_or_ge c N with hlt | hge
  · exact part3 ((hset _).2 ⟨c, hlt, rfl⟩)
  · have hNc : N < c := by omega
    have hmem := part2 N hNc
    obtain ⟨i, hi, heqi⟩ := (hset _).1 hmem
    omega

def stW3 : JournalData :=
  ⟨[], [], [], [("h", habitW)],
   [("h", [("2025-01-05", habitLogW "2025-01-05"), ("2025-01-04", habitLogW "2025-01-04")])]⟩

def valW3 : String → Int := fun s => if s = "2025-01-05" then 5 else 4

/-- C3 witness: the theorem at two consecutive logged days ending on day 5. -/
theorem c3_currentStreak_witness :
    ((5 : Int) - ((getHabitStreak stW3 "h" valW3 5).current : Int))
        ∉ habitDates stW3 "h" valW3 :=
  (c3_currentStreak stW3 "h" valW3 5).2.2.1

/-! ### Claim C4: longest streak -/

/-- Length of the initial run of consecutive (step −1) values at the head of
a list — the specification's notion of a streak read off a
descending-sorted date list. -/
def down : List Int → Nat
  | [] => 0
  | [_] => 1
  | d1 :: d2 :: rest => if d1 - d2 = 1 then 1 + down (d2 :: rest) else 1

/-- The maximum, over every suffix of the list, of the initial-run length:
for a strictly descending list this is the spec's "maximum length of any run
of calendar-consecutive dates". -/
def maxRunList : List Int → Nat
  | [] => 0
  | d :: r => max (down (d :: r)) (maxRunList r)

theorem down_pos (d : Int) (l : List Int) : 1 ≤ down (d :: l) := by
  cases l with
  | nil => simp [down]
  | cons d2 r =>
    unfold down
    by_cases h : d - d2 = 1 <;> simp [h]

theorem longestLoop_eq (l : List Int) :
    ∀ (d : Int) (L t : Nat), 1 ≤ t →
      longestLoop (d :: l) L t = max L (max (t - 1 + down (d :: l)) (maxRunList l)) := by
  induction l with
  | nil =>
    intro d L t ht
    simp only [longestLoop, down, maxRunList]
    omega
  | cons d2 r ih =>
    intro d L t ht
    by_cases h : d - d2 = 1
    · rw [show longestLoop (d :: d2 :: r) L t = longestLoop (d2 :: r) L (t + 1) by
        simp [longestLoop, h]]
      rw [ih d2 L (t + 1) (by omega)]
      rw [show down (d :: d2 :: r) = 1 + down (d2 :: r) by simp [down, h]]
      rw [show maxRunList (d2 :: r) = max (down (d2 :: r)) (maxRunList r) by rfl]
      omega
    · rw [show longestLoop (d :: d2 :: r) L t = longestLoop (d2 :: r) (max L t) 1 by
        simp [longestLoop, h]]
      rw [ih d2 (max L t) 1 (by omega)]
      rw [show down (d :: d2 :: r) = 1 by simp [down, h]]
      rw [show maxRunList (d2 :: r) = max (down (d2 :: r)) (maxRunList r) by rfl]
      omega

theorem longest_eq_maxRunList (dates : List Int) (today : Int) (hne : dates ≠ []) :
    (streakOfDates dates today).longest
      = maxRunList ((List.insertionSort (fun a b => a ≤ b) dates).reverse) := by
  unfold streakOfDates
  rw [if_neg hne]
  have hsne : (List.insertionSort (fun a b => a ≤ b) dates).reverse ≠ [] := by
    intro h0
    apply hne
    have hp := List.perm_insertionSort (fun a b => a ≤ b) dates
    have : List.insertionSort (fun a b => a ≤ b) dates = [] := by
      rw [← List.reverse_reverse (List.insertionSort (fun a b => a ≤ b) dates), h0]
      rfl
    rw [this] at hp
    exact hp.symm.eq_nil
  cases hs : (List.insertionSort (fun a b => a ≤ b) dates).reverse with
  | nil => exact absurd hs hsne
  | cons d l =>
    simp only
    rw [longestLoop_eq l d 0 1 (by omega)]
    rw [show maxRunList (d :: l) = max (down (d :: l)) (maxRunList l) by rfl]
    omega

theorem down_mem (l : List Int) :
    ∀ (d : Int) (i : Nat), i < down (d :: l) → (d - (i : Int)) ∈ d :: l := by
  induction l with
  | nil =>
    intro d i hi
    simp only [down] at hi
    have : i = 0 := by omega
    subst this
    simp
  | cons d2 r ih =>
    intro d i hi
    by_cases h : d - d2 = 1
    · rw [show down (d :: d2 :: r) = 1 + down (d2 :: r) by simp [down, h]] at hi
      cases i with
      | zero => simp
      | succ j =>
        have hj : j < down (d2 :: r) := by omega
        have hmem := ih d2 j hj
        have harith : d - ((j + 1 : Nat) : Int) = d2 - (j : Int) := by push_cast; omega
        rw [harith]
        exact List.mem_cons_of_mem d hmem
    · rw [show down (d :: d2 :: r) = 1 by simp [down, h]] at hi
      have : i = 0 := by omega
      subst this
      simp

theorem maxRunList_attained (s : List Int) :
    ∃ d : Int, ∀ i : Nat, i < maxRunList s → (d - (i : Int)) ∈ s := by
  induction s with
  | nil => exact ⟨0, fun i hi => by simp [maxRunList] at hi⟩
  | cons a r ih =>
    obtain ⟨d, hd⟩ := ih
    by_cases h : maxRunList r ≤ down (a :: r)
    · refine ⟨a, fun i hi => ?_⟩
      rw [show maxRunList (a :: r) = max (down (a :: r)) (maxRunList r) by rfl] at hi
      exact down_mem r a i (by omega)
    · refine ⟨d, fun i hi => ?_⟩
      rw [show maxRunList (a :: r) = max (down (a :: r)) (maxRunList r) by rfl] at hi
      exact List.mem_cons_of_mem a (hd i (by omega))

theorem headRun_le_down (r : List Int) :
    ∀ (a : Int) (k : Nat), List.Pairwise (fun x y => x > y) (a :: r) →
      (∀ i : Nat, i < k → (a - (i : Int)) ∈ a :: r) → k ≤ down (a :: r) := by
  induction r with
  | nil =>
    intro a k _ hmem
    by_contra hk
    push_neg at hk
    simp only [down] at hk
    have h1 := hmem 1 (by omega)
    simp only [List.mem_singleton] at h1
    omega
  | cons b r' ih =>
    intro a k hpw hmem
    by_cases hk : k ≤ 1
    · exact le_trans hk (down_pos a (b :: r'))
    · push_neg at hk
      obtain ⟨hhead, htail⟩ := List.pairwise_cons.1 hpw
      have hab : b < a := hhead b (List.mem_cons_self b r')
      have h1 := hmem 1 (by omega)
      have hne : a - (1 : Int) ≠ a := by omega
      have h1' : a - (1 : Int) ∈ b :: r' := by
        rcases List.mem_cons.1 h1 with heq | hm
        · exact absurd (by push_cast at heq; omega) hne
        · exact hm
      have hb : a - 1 = b := by
        rcases List.mem_cons.1 h1' with heq | hm
        · omega
        · have := (List.pairwise_cons.1 htail).1 _ hm
          omega
      have hdown : down (a :: b :: r') = 1 + down (b :: r') := by
        simp [down, show a - b = 1 by omega]
      rw [hdown]
      have hmem' : ∀ i : Nat, i < k - 1 → (b - (i : Int)) ∈ b :: r' := by
        intro i hi
        have hmm := hmem (i + 1) (by omega)
        have harith : a - ((i + 1 : Nat) : Int) = b - (i : Int) := by push_cast; omega
        rw [harith] at hmm
        rcases List.mem_cons.1 hmm with heq | hm
        · exfalso; omega
        · exact hm
      have := ih b (k - 1) htail hmem'
      omega

theorem run_le_maxRunList (s : List Int) :
    List.Pairwise (fun x y => x > y) s → ∀ (d : Int) (k : Nat),
      (∀ i : Nat, i < k → (d - (i : Int)) ∈ s) → k ≤ maxRunList s := by
  induction s with
  | nil =>
    intro _ d k hmem
    cases k with
    | zero => simp
    | succ k' => exact absurd (hmem 0 (by omega)) (List.not_mem_nil _)
  | cons a r ih =>
    intro hpw d k hmem
    cases k with
    | zero => simp
    | succ k' =>
      have hd : d ∈ a :: r := by
        have := hmem 0 (by omega)
        simpa using this
      obtain ⟨hhead, htail⟩ := List.pairwise_cons.1 hpw
      by_cases hda : d = a
      · subst hda
        have := headRun_le_down r d (k' + 1) hpw hmem
        rw [show maxRunList (d :: r) = max (down (d :: r)) (maxRunList r) by rfl]
        omega
      · have hdr : d ∈ r := by
          rcases List.mem_cons.1 hd with heq | hm
          · exact absurd heq hda
          · exact hm
        have hdlt : d < a := hhead d hdr
        have hmem' : ∀ i : Nat, i < k' + 1 → (d - (i : Int)) ∈ r := by
          intro i hi
          have hmm := hmem i hi
          rcases List.mem_cons.1 hmm with heq | hm
          · exfalso
            have : (i : Int) ≥ 0 := Int.natCast_nonneg i
            omega
          · exact hm
        have := ih htail d (k' + 1) hmem'
        rw [show maxRunList (a :: r) = max (down (a :: r)) (maxRunList r) by rfl]
        omega

theorem sortedDesc_pairwise (dates : List Int) (hnd : dates.Nodup) :
    List.Pairwise (fun x y => x > y)
      ((List.insertionSort (fun a b => a ≤ b) dates).reverse) := by
  have hsorted : List.Pairwise (fun a b => a ≤ b)
      (List.insertionSort (fun a b => a ≤ b) dates) :=
    List.sorted_insertionSort _ dates
  have hnd' : (List.insertionSort (fun a b => a ≤ b) dates).Nodup :=
    (List.perm_insertionSort _ dates).nodup_iff.2 hnd
  have hcomb : List.Pairwise (fun a b : Int => a ≤ b ∧ a ≠ b)
      (List.insertionSort (fun a b => a ≤ b) dates) := hsorted.and hnd'
  have hlt : List.Pairwise (fun a b : Int => b > a)
      (List.insertionSort (fun a b => a ≤ b) dates) :=
    hcomb.imp (fun h => lt_of_le_of_ne h.1 h.2)
  exact List.pairwise_reverse.2 hlt

theorem mem_sortedDesc (dates : List Int) (x : Int) :
    x ∈ (List.insertionSort (fun a b => a ≤ b) dates).reverse ↔ x ∈ dates := by
  rw [List.mem_reverse]
  exact (List.perm_insertionSort _ dates).mem_iff

def habitEx : Habit := ⟨"ex", "Exercise", "", "daily", 1, [], "t0"⟩

def stGap : JournalData :=
  ⟨[], [], [], [("ex", habitEx)],
   [("ex", [("2025-01-01", habitLogW "2025-01-01"), ("2025-01-02", habitLogW "2025-01-02"),
            ("2025-01-04", habitLogW "2025-01-04"), ("2025-01-05", habitLogW "2025-01-05")])]⟩

def valGap : String → Int := fun s =>
  if s = "2025-01-01" then 0
  else if s = "2025-01-02" then 1
  else if s = "2025-01-04" then 3
  else 4

/-- C4: `getHabitStreak` returns `longest` equal to the maximum length, over
the whole history, of any run of calendar-consecutive logged dates: every
consecutive run's length is at most `longest`, a run of length exactly
`longest` exists, an empty history gives 0 and a one-date history gives 1;
and for the spec's gap scenario (days 0, 1, 3, 4, i.e. 2025-01-01/02/04/05
with today = 2025-01-05) the longest streak is 2 (and the current streak is
also 2). -/
theorem c4_longestStreak (st : JournalData) (hid : String) (val : String → Int)
    (today : Int) (hnd : (habitDates st hid val).Nodup) :
    (∀ (d : Int) (k : Nat),
        (∀ i : Nat, i < k → (d - (i : Int)) ∈ habitDates st hid val) →
        k ≤ (getHabitStreak st hid val today).longest)
    ∧ (∃ d : Int, ∀ i : Nat, i < (getHabitStreak st hid val today).longest →
        (d - (i : Int)) ∈ habitDates st hid val)
    ∧ (habitDates st hid val = [] → (getHabitStreak st hid val today).longest = 0)
    ∧ (∀ d₀ : Int, habitDates st hid val = [d₀] →
        (getHabitStreak st hid val today).longest = 1)
    ∧ (getHabitStreak stGap "ex" valGap 4).longest = 2
    ∧ (getHabitStreak stGap "ex" valGap 4).current = 2 := by
  have hstreak : getHabitStreak st hid val today
      = streakOfDates (habitDates st hid val) today := rfl
  set ds := habitDates st hid val with hds
  by_cases hne : ds = []
  · have hzero : (streakOfDates ds today).longest = 0 := by rw [hne]; rfl
    refine ⟨?_, ?_, ?_, ?_, by decide, by decide⟩
    · intro d k hmem
      cases k with
      | zero => omega
      | succ k' =>
        have h0 := hmem 0 (by omega)
        rw [hne] at h0
        exact absurd h0 (List.not_mem_nil _)
    · exact ⟨0, fun i hi => by rw [hstreak, hzero] at hi; omega⟩
    · intro _
      rw [hstreak]
      exact hzero
    · intro d₀ h
      rw [hne] at h
      exact absurd h (by simp)
  · have hlongest : (streakOfDates ds today).longest
        = maxRunList ((List.insertionSort (fun a b => a ≤ b) ds).reverse) :=
      longest_eq_maxRunList ds today hne
    have hpw := sortedDesc_pairwise ds hnd
    have hmemiff := mem_sortedDesc ds
    refine ⟨?_, ?_, ?_, ?_, by decide, by decide⟩
    · intro d k hmem
      rw [hstreak, hlongest]
      exact run_le_maxRunList _ hpw d k (fun i hi => (hmemiff _).2 (hmem i hi))
    · obtain ⟨d, hd⟩ := maxRunList_attained
        ((List.insertionSort (fun a b => a ≤ b) ds).reverse)
      refine ⟨d, fun i hi => ?_⟩
      rw [hstreak, hlongest] at hi
      exact (hmemiff _).1 (hd i hi)
    · intro h
      exact absurd h hne
    · intro d₀ h
      rw [hstreak, hlongest, h]
      rfl

/-- C4 witness: the theorem at the gap scenario's state. -/
theorem c4_longestStreak_witness :
    (habitDates stGap "ex" valGap).Nodup
    ∧ (getHabitStreak stGap "ex" valGap 4).longest = 2 :=
  ⟨by decide, (c4_longestStreak stGap "ex" valGap 4 (by decide)).2.2.2.2.1⟩

end BulletJournal
